import Mathlib

/-!
Verification development for the xxsmux repository (a hierarchical
route-registration builder for Go's `http.ServeMux`).

The repository contains three variants of the builder:
* `muxify.Mux` (first half of muxify.go): a flat wrapper around
  `http.ServeMux` with `Handle`/`HandleFunc`/`Prefix`/`Use`/`Subrouter`;
* `muxify.ServeMuxBuilder` (second half of muxify.go): the tree-shaped
  builder with `Pattern`/`Prefix`/`Use`/`Subrouter`/`Build`;
* `XXSMux` (main.go): an earlier tree-shaped variant of the same design.

This file shallowly embeds all three.  Strings are `List Char`; handlers
and middlewares stored in the tree are opaque `Nat` identifiers; the
parent/root/child pointer graph is an arena (`List Node`) addressed by
integer ids, so Go pointer equality becomes id equality.  Go map values
(`map[string]http.Handler`) are association lists with insert-or-replace
update; Go's randomized map iteration order is determinized to the
insertion order, which is one admissible order and does not affect any
property proved here.
-/

namespace Muxify

/-- Strings are modelled as lists of characters. -/
abbrev Str := List Char

/-- Coercion helper from Lean string literals to the `Str` model. -/
def str (s : String) : Str := s.data

/-- Embeds `removeDoubleSlash` (muxify.go and main.go):
`regexp.MustCompile("//+").ReplaceAllString(text, "/")`, i.e. every
maximal run of two or more consecutive slashes is replaced by a single
slash.  Extensionally this collapses every run of slashes to one slash. -/
def removeDoubleSlash : Str → Str
  | a :: b :: rest =>
      if a = '/' ∧ b = '/' then removeDoubleSlash (b :: rest)
      else a :: removeDoubleSlash (b :: rest)
  | l => l

/-- Decides whether a string contains two consecutive slashes anywhere. -/
def hasDoubleSlash : Str → Bool
  | a :: b :: rest =>
      if a = '/' ∧ b = '/' then true else hasDoubleSlash (b :: rest)
  | _ => false

/-- Embeds the shared body of `ServeMuxBuilder.Prefix` and `Mux.Prefix`
(muxify.go): if the argument is non-empty and does not start with a
slash, a leading slash is inserted. -/
def normalizePrefix (p : Str) : Str :=
  match p with
  | [] => []
  | c :: _ => if c = '/' then p else '/' :: p

/-- Embeds Go's `strings.Split(pattern, " ")`: splits at every single
space character; `n` separators yield `n+1` (possibly empty) parts. -/
def splitGo : Str → List Str
  | [] => [[]]
  | c :: rest =>
      if c = ' ' then [] :: splitGo rest
      else
        match splitGo rest with
        | [] => [[c]]
        | p :: ps => (c :: p) :: ps

/-- Embeds `splitPattern` (muxify.go) and the identical inline switch in
`ServeMuxBuilder.Pattern`: when the split has exactly two parts the
first is the method (with a trailing space re-attached) and the second
the path; otherwise the method is empty and the path is the first part. -/
def splitPattern (pattern : Str) : Str × Str :=
  match splitGo pattern with
  | [m, p] => (m ++ [' '], p)
  | parts => ([], parts.headD [])

/-- Definition following the spec's words (§3 invariants, §8), for
comparison with the code: the effective prefix of a node is the
concatenation of the prefix fragments along the ancestor chain from the
root down to the node, each preceded by a single separator, with
repeated separators collapsed. -/
def specEffectivePrefix (frags : List Str) : Str :=
  removeDoubleSlash ((frags.map (fun f => '/' :: f)).foldr (· ++ ·) [])

/-! ### Middleware composition (observed execution order model)

A handler is modelled by its execution trace (the list of labels it
executes, in order); a middleware is a handler transformer.  The
labelled middleware `tag i` records label `i` and then runs the handler
it wraps, so traces directly exhibit the observed execution order. -/

/-- A handler, modelled as its execution trace. -/
abbrev Handler := List Nat

/-- A middleware: a handler transformer. -/
abbrev MW := Handler → Handler

/-- Embeds `newHandler` (muxify.go, both the `Mux` and the
`ServeMuxBuilder` half share this definition): the loop
`for i := len(mw)-1; i >= 0; i-- { h = mw[i](h) }`,
i.e. `h := mw[0](mw[1](…mw[n-1](h)…))`. -/
def newHandler (mw : List MW) (h : Handler) : Handler :=
  mw.foldr (fun m acc => m acc) h

/-- Embeds `NewHandler` (main.go): the loop
`next := h; for _, m := range mw { next = m(next) }`,
i.e. `next := mw[n-1](…mw[0](h)…)`. -/
def NewHandler (mw : List MW) (h : Handler) : Handler :=
  mw.foldl (fun acc m => m acc) h

/-- A labelled middleware: executes its own label first, then the
handler it wraps. -/
def tag (i : Nat) : MW := fun h => i :: h

/-! ### The builder tree

One arena node embeds the fields shared by `ServeMuxBuilder`
(muxify.go) and `XXSMux` (main.go): the local pattern map, the stored
pattern-prefix string, the middleware slice, the root/parent pointers
(ids into the arena), the child list, and root-only bookkeeping
(`registeredPatterns`, `executedBuild`). -/

structure Node where
  Patterns : List (Str × Nat)
  PatternPrefix : Str
  Middlewares : List Nat
  Root : Nat
  Parent : Nat
  Sub : List Nat
  registeredPatterns : List Str
  executedBuild : Bool
deriving DecidableEq

instance : Inhabited Node := ⟨⟨[], [], [], 0, 0, [], [], false⟩⟩

/-- Arena lookup; out-of-range ids yield the default node (unreachable
for states built through the API, since Go pointers are never dangling). -/
def getN : List Node → Nat → Node
  | [], _ => default
  | n :: _, 0 => n
  | _ :: rest, i + 1 => getN rest i

/-- Arena update; out-of-range ids leave the arena unchanged. -/
def setN : List Node → Nat → Node → List Node
  | [], _, _ => []
  | _ :: rest, 0, m => m :: rest
  | n :: rest, i + 1, m => n :: setN rest i m

/-- The whole mutable heap of one (or several) builder trees. -/
structure State where
  nodes : List Node
deriving DecidableEq

def State.node (s : State) (i : Nat) : Node := getN s.nodes i

def State.set (s : State) (i : Nat) (n : Node) : State := ⟨setN s.nodes i n⟩

/-- Go map assignment `m[k] = v` on the association-list model:
replaces the value of an existing key, otherwise appends. -/
def insertReplace : List (Str × Nat) → Str → Nat → List (Str × Nat)
  | [], k, v => [(k, v)]
  | (k', v') :: rest, k, v =>
      if k' = k then (k, v) :: rest else (k', v') :: insertReplace rest k v

/-- Embeds `NewServeMuxBuilder` (muxify.go): allocates a fresh node whose
`Root` and `Parent` point to itself, and returns its id.  (The manual
wiring `router.root = router; router.parent = router` in main.go sets up
the same root node shape for `XXSMux`.) -/
def newBuilder (s : State) : State × Nat :=
  (⟨s.nodes ++ [⟨[], [], [], s.nodes.length, s.nodes.length, [], [], false⟩]⟩,
   s.nodes.length)

/-- Embeds `ServeMuxBuilder.Subrouter` (muxify.go): allocates a child
with `Parent := b`, `Root := b.Root`, and middlewares copied from the
parent when the parent is not the root, otherwise from the root (the two
branches read the same slice, since `subBuilder.Parent` is `b`); the
child id is appended to `b`'s child list. -/
def Subrouter (s : State) (b : Nat) : State × Nat :=
  let id := s.nodes.length
  let root := (s.node b).Root
  let mws := if b ≠ root then (s.node b).Middlewares
             else (s.node root).Middlewares
  let child : Node := ⟨[], [], mws, root, b, [], [], false⟩
  let s1 : State := ⟨s.nodes ++ [child]⟩
  let pb := s1.node b
  (s1.set b { pb with Sub := pb.Sub ++ [id] }, id)

/-- Embeds `XXSMux.Subrouter` (main.go): identical to the muxify variant
except that the child's middlewares are copied from the ROOT's slice
(`mux.root.middlewares`), not the parent's (the `!= nil` and
`subMux != mux.root` guards are extensionally immaterial: appending an
empty slice is the identity and a fresh child is never the root). -/
def xxsSubrouter (s : State) (b : Nat) : State × Nat :=
  let id := s.nodes.length
  let root := (s.node b).Root
  let child : Node := ⟨[], [], (s.node root).Middlewares, root, b, [], [], false⟩
  let s1 : State := ⟨s.nodes ++ [child]⟩
  let pb := s1.node b
  (s1.set b { pb with Sub := pb.Sub ++ [id] }, id)

/-- Embeds `ServeMuxBuilder.Prefix` (muxify.go): stores the normalized
argument, overwriting any previously stored prefix. -/
def Prefix (s : State) (b : Nat) (p : Str) : State :=
  s.set b { s.node b with PatternPrefix := normalizePrefix p }

/-- Embeds `XXSMux.Prefix` (main.go): stores the argument verbatim
(no leading-slash normalization, see the TODO comment in the source). -/
def xxsPrefix (s : State) (b : Nat) (p : Str) : State :=
  s.set b { s.node b with PatternPrefix := p }

/-- Embeds `ServeMuxBuilder.Use` (muxify.go) and the identical
`XXSMux.Use` (main.go): appends to the node's own middleware slice. -/
def Use (s : State) (b : Nat) (mws : List Nat) : State :=
  s.set b { s.node b with Middlewares := (s.node b).Middlewares ++ mws }

/-- Embeds `ServeMuxBuilder.Pattern` (muxify.go).  The Go method first
saves the stored prefix, zeroes it, re-seeds it from the root's stored
prefix (which reads the empty string when `b` is itself the root, since
the zeroing already happened on the same object), then scans the
parent's child list: when the parent is not the root, every child of
every child of the parent overwrites the prefix in turn (a read of `b`'s
own field mid-scan sees the value being threaded).  The saved fragment
is appended, each pattern string is split into method and path, the key
`method ++ removeDoubleSlash(prefix ++ path)` is inserted into the map,
and finally the node appends ITSELF to its own child list. -/
def Pattern (s : State) (b : Nat) (pats : List (Str × Nat)) : State :=
  let saved := (s.node b).PatternPrefix
  let root := (s.node b).Root
  let par := (s.node b).Parent
  let pp0 : Str := if root = b then [] else (s.node root).PatternPrefix
  let pp1 := (s.node par).Sub.foldl
      (fun pp sub =>
        if par ≠ root then
          ((s.node sub).Sub).foldl
            (fun pp2 ss => if ss = b then pp2 else (s.node ss).PatternPrefix) pp
        else pp)
      pp0
  let pp := pp1 ++ saved
  let newPats := pats.foldl (fun acc pr =>
      let mp := splitPattern pr.1
      insertReplace acc (mp.1 ++ removeDoubleSlash (pp ++ mp.2)) pr.2)
    (s.node b).Patterns
  s.set b { s.node b with PatternPrefix := pp, Patterns := newPats,
                          Sub := (s.node b).Sub ++ [b] }

/-- `getN` yields the default node beyond the arena. -/
theorem getN_ge (l : List Node) (i : Nat) (h : l.length ≤ i) :
    getN l i = default := by
  induction l generalizing i with
  | nil => cases i <;> rfl
  | cons n rest ih =>
      cases i with
      | zero => simp at h
      | succ j => exact ih j (by simpa using h)

/-- Embeds the traversal loop of `ServeMuxBuilder.Build` (muxify.go) and
the identical loop of `XXSMux.Build` (main.go): a breadth-first walk
over the child graph with a visited set.  It returns the list of node
ids visited (in visit order) and the sequence of
`defaultServeMux.Handle(pattern, …)` calls it performs, as
(pattern, handler) pairs in emission order.  The recursion is
well-founded: each step either shrinks the queue or visits a node of
the arena not visited before. -/
def bfsAux (nodes : List Node) : List Nat → List Nat → List Nat × List (Str × Nat)
  | [], _ => ([], [])
  | current :: rest, visited =>
      if h : current ∈ visited then
        bfsAux nodes rest visited
      else
        let nd := getN nodes current
        let r := bfsAux nodes (rest ++ nd.Sub) (current :: visited)
        (current :: r.1, nd.Patterns ++ r.2)
termination_by queue visited =>
  (((Finset.range nodes.length).filter (fun i => i ∉ visited)).card, queue.length)
decreasing_by
  · apply Prod.Lex.right
    simp
  · by_cases hc : current < nodes.length
    · apply Prod.Lex.left
      have hsub : (Finset.range nodes.length).filter
            (fun i => i ∉ current :: visited)
          = ((Finset.range nodes.length).filter (fun i => i ∉ visited)).erase
              current := by
        ext i
        simp only [Finset.mem_filter, Finset.mem_erase, Finset.mem_range,
          List.mem_cons, not_or]
        tauto
      rw [hsub]
      exact Finset.card_erase_lt_of_mem (by
        simp only [Finset.mem_filter, Finset.mem_range]
        exact ⟨hc, h⟩)
    · have hget : getN nodes current = default := getN_ge _ _ (by omega)
      have hfix : (Finset.range nodes.length).filter
            (fun i => i ∉ current :: visited)
          = (Finset.range nodes.length).filter (fun i => i ∉ visited) := by
        ext i
        simp only [Finset.mem_filter, Finset.mem_range, List.mem_cons, not_or]
        constructor
        · rintro ⟨hi, _, hv⟩; exact ⟨hi, hv⟩
        · rintro ⟨hi, hv⟩; exact ⟨hi, by omega, hv⟩
      rw [hfix, hget]
      apply Prod.Lex.right
      simp [show (default : Node).Sub = [] from rfl]

/-- The concatenation of the local pattern maps of a list of nodes,
in order. -/
def patternsOf (nodes : List Node) (ids : List Nat) : List (Str × Nat) :=
  ids.foldr (fun i acc => (getN nodes i).Patterns ++ acc) []

/-- Embeds `ServeMuxBuilder.Build` (muxify.go): starts the breadth-first
walk at `b.Root` with an empty visited set, appends every emitted
pattern to the root's `registeredPatterns`, sets the root's
`executedBuild` flag (which is written but never checked by `Build`
itself), and returns the sequence of `Handle` registrations performed
on the freshly created `http.ServeMux` together with the visit order. -/
def Build (s : State) (b : Nat) : State × List (Str × Nat) × List Nat :=
  let root := (s.node b).Root
  let r := bfsAux s.nodes [root] []
  let rn := s.node root
  (s.set root { rn with
      registeredPatterns := rn.registeredPatterns ++ r.2.map Prod.fst,
      executedBuild := true },
   r.2, r.1)

/-! ### The flat `muxify.Mux` variant -/

/-- Embeds `muxify.Mux` (first half of muxify.go); the shared
`*http.ServeMux` is represented by the list of registered pattern
strings. -/
structure Mux where
  patternPrefix : Str
  middlewares : List Nat
  registeredPatterns : List Str
deriving DecidableEq

/-- Embeds `NewMux` (muxify.go). -/
def NewMux : Mux := ⟨[], [], []⟩

/-- Embeds `Mux.Prefix` (muxify.go): normalizes the argument and then
APPENDS it to the stored prefix (`mux.patternPrefix += prefix`). -/
def Mux.Prefix (m : Mux) (p : Str) : Mux :=
  { m with patternPrefix := m.patternPrefix ++ normalizePrefix p }

/-- Embeds `Mux.Use` (muxify.go). -/
def Mux.Use (m : Mux) (mws : List Nat) : Mux :=
  { m with middlewares := m.middlewares ++ mws }

/-- Embeds `Mux.Handle` (muxify.go): splits the pattern into method and
path, concatenates `method ++ patternPrefix ++ path` WITHOUT any
separator normalization, registers the handler under that string and
records the string.  The registered string is also returned. -/
def Mux.Handle (m : Mux) (pat : Str) (_handler : Nat) : Mux × Str :=
  let mp := splitPattern pat
  let full := mp.1 ++ m.patternPrefix ++ mp.2
  ({ m with registeredPatterns := m.registeredPatterns ++ [full] }, full)

/-! ### Helper lemmas -/

theorem length_setN (l : List Node) (i : Nat) (n : Node) :
    (setN l i n).length = l.length := by
  induction l generalizing i with
  | nil => rfl
  | cons x rest ih =>
      cases i with
      | zero => rfl
      | succ j => simp [setN, ih]

theorem getN_setN_self (l : List Node) (i : Nat) (n : Node) (h : i < l.length) :
    getN (setN l i n) i = n := by
  induction l generalizing i with
  | nil => simp at h
  | cons x rest ih =>
      cases i with
      | zero => rfl
      | succ j => exact ih j (by simpa using h)

theorem getN_setN_ne (l : List Node) (i j : Nat) (n : Node) (h : i ≠ j) :
    getN (setN l i n) j = getN l j := by
  induction l generalizing i j with
  | nil => rfl
  | cons x rest ih =>
      cases i with
      | zero =>
          cases j with
          | zero => exact absurd rfl h
          | succ k => rfl
      | succ i' =>
          cases j with
          | zero => rfl
          | succ k => exact ih i' k (by omega)

theorem State.node_set_self (s : State) (i : Nat) (n : Node)
    (h : i < s.nodes.length) : (s.set i n).node i = n :=
  getN_setN_self _ _ _ h

theorem State.node_set_ne (s : State) (i j : Nat) (n : Node) (h : i ≠ j) :
    (s.set i n).node j = s.node j :=
  getN_setN_ne _ _ _ _ h

theorem foldl_skip {α β : Type} (l : List α) (x : β) :
    l.foldl (fun a _ => a) x = x := by
  induction l generalizing x with
  | nil => rfl
  | cons c t ih => simpa using ih x

/-- `removeDoubleSlash` keeps the head character of its input. -/
theorem removeDoubleSlash_cons (a : Char) (l : Str) :
    ∃ t, removeDoubleSlash (a :: l) = a :: t := by
  induction l generalizing a with
  | nil => exact ⟨[], rfl⟩
  | cons b rest ih =>
      by_cases hab : a = '/' ∧ b = '/'
      · obtain ⟨t, ht⟩ := ih b
        exact ⟨t, by rw [show removeDoubleSlash (a :: b :: rest)
          = removeDoubleSlash (b :: rest) from by simp [removeDoubleSlash, hab],
          ht, hab.1, hab.2]⟩
      · exact ⟨removeDoubleSlash (b :: rest), by
          simp [removeDoubleSlash, hab]⟩

/-- The output of `removeDoubleSlash` never contains two consecutive
slashes. -/
theorem removeDoubleSlash_no_double (l : Str) :
    hasDoubleSlash (removeDoubleSlash l) = false := by
  induction l with
  | nil => rfl
  | cons a rest ih =>
      cases rest with
      | nil => rfl
      | cons b r =>
          by_cases hab : a = '/' ∧ b = '/'
          · rw [show removeDoubleSlash (a :: b :: r)
              = removeDoubleSlash (b :: r) from by simp [removeDoubleSlash, hab]]
            exact ih
          · rw [show removeDoubleSlash (a :: b :: r)
              = a :: removeDoubleSlash (b :: r) from by
                simp [removeDoubleSlash, hab]]
            obtain ⟨t, ht⟩ := removeDoubleSlash_cons b r
            rw [ht]
            rw [show hasDoubleSlash (a :: b :: t) = if a = '/' ∧ b = '/' then
              true else hasDoubleSlash (b :: t) from rfl]
            rw [if_neg hab, ← ht]
            exact ih

/-- Every `Handle` call emitted by the breadth-first walk comes from the
local pattern map of a visited node: the emitted sequence is exactly the
concatenation of the visited nodes' pattern maps, in visit order, with
no deduplication and no failure. -/
theorem bfsAux_calls_eq (nodes : List Node) (queue visited : List Nat) :
    (bfsAux nodes queue visited).2
      = patternsOf nodes (bfsAux nodes queue visited).1 := by
  induction queue, visited using bfsAux.induct nodes with
  | case1 visited => simp [bfsAux, patternsOf]
  | case2 current rest visited h ih => simpa [bfsAux, h] using ih
  | case3 current rest visited h nd ih =>
      have ih' : (bfsAux nodes (rest ++ (getN nodes current).Sub)
            (current :: visited)).2
          = patternsOf nodes (bfsAux nodes (rest ++ (getN nodes current).Sub)
              (current :: visited)).1 := ih
      simp only [bfsAux, dif_neg h]
      simp [patternsOf, ih']

/-- The visit order produced by the breadth-first walk never revisits a
node: it is disjoint from the initial visited set and has no
duplicates. -/
theorem bfsAux_nodup (nodes : List Node) (queue visited : List Nat) :
    (∀ x ∈ (bfsAux nodes queue visited).1, x ∉ visited)
      ∧ (bfsAux nodes queue visited).1.Nodup := by
  induction queue, visited using bfsAux.induct nodes with
  | case1 visited => simp [bfsAux]
  | case2 current rest visited h ih => simpa [bfsAux, h] using ih
  | case3 current rest visited h nd ih =>
      simp only [bfsAux, dif_neg h]
      obtain ⟨ihfresh, ihnodup⟩ := ih
      refine ⟨?_, ?_⟩
      · intro x hx
        simp only [List.mem_cons] at hx
        rcases hx with rfl | hx
        · exact h
        · have := ihfresh x hx
          simp only [List.mem_cons, not_or] at this
          exact this.2
      · refine List.nodup_cons.2 ⟨?_, ihnodup⟩
        intro hc
        have := ihfresh current hc
        simp at this

/-- The breadth-first walk reads a node only through its `Patterns` and
`Sub` fields: two arenas agreeing on those fields produce identical
walks. -/
theorem bfsAux_congr (nodes nodes' : List Node)
    (hag : ∀ i, (getN nodes i).Patterns = (getN nodes' i).Patterns
        ∧ (getN nodes i).Sub = (getN nodes' i).Sub) :
    ∀ queue visited, bfsAux nodes queue visited = bfsAux nodes' queue visited := by
  intro queue visited
  induction queue, visited using bfsAux.induct nodes with
  | case1 visited => simp [bfsAux]
  | case2 current rest visited h ih =>
      rw [show bfsAux nodes (current :: rest) visited
        = bfsAux nodes rest visited from by simp [bfsAux, h],
        show bfsAux nodes' (current :: rest) visited
        = bfsAux nodes' rest visited from by simp [bfsAux, h]]
      exact ih
  | case3 current rest visited h nd ih =>
      have ih' : bfsAux nodes (rest ++ (getN nodes current).Sub)
            (current :: visited)
          = bfsAux nodes' (rest ++ (getN nodes current).Sub)
            (current :: visited) := ih
      rw [show bfsAux nodes (current :: rest) visited
        = ((current :: (bfsAux nodes (rest ++ (getN nodes current).Sub)
              (current :: visited)).1,
            (getN nodes current).Patterns
              ++ (bfsAux nodes (rest ++ (getN nodes current).Sub)
                    (current :: visited)).2)) from by
          simp only [bfsAux, dif_neg h],
        show bfsAux nodes' (current :: rest) visited
        = ((current :: (bfsAux nodes' (rest ++ (getN nodes' current).Sub)
              (current :: visited)).1,
            (getN nodes' current).Patterns
              ++ (bfsAux nodes' (rest ++ (getN nodes' current).Sub)
                    (current :: visited)).2)) from by
          simp only [bfsAux, dif_neg h]]
      rw [← (hag current).1, ← (hag current).2, ih']

/-- When a node's parent is its root (the root itself, or a direct child
of the root), the sibling scan inside `Pattern` is skipped entirely, and
the prefix used for the keys is the root's stored prefix (empty for the
root itself) followed by the node's own stored fragment. -/
theorem Pattern_parent_root (s : State) (b : Nat) (pats : List (Str × Nat))
    (hpar : (s.node b).Parent = (s.node b).Root) :
    Pattern s b pats =
      s.set b { s.node b with
        PatternPrefix :=
          (if (s.node b).Root = b then []
           else (s.node (s.node b).Root).PatternPrefix)
            ++ (s.node b).PatternPrefix,
        Patterns := pats.foldl (fun acc pr =>
          insertReplace acc ((splitPattern pr.1).1
            ++ removeDoubleSlash
              (((if (s.node b).Root = b then []
                  else (s.node (s.node b).Root).PatternPrefix)
                 ++ (s.node b).PatternPrefix) ++ (splitPattern pr.1).2)) pr.2)
          (s.node b).Patterns,
        Sub := (s.node b).Sub ++ [b] } := by
  unfold Pattern
  rw [hpar]
  simp [foldl_skip]

theorem setN_ge (l : List Node) (i : Nat) (n : Node) (h : l.length ≤ i) :
    setN l i n = l := by
  induction l generalizing i with
  | nil => rfl
  | cons x rest ih =>
      cases i with
      | zero => simp at h
      | succ j => simp [setN, ih j (by simpa using h)]

theorem getN_append_len (l : List Node) (n : Node) :
    getN (l ++ [n]) l.length = n := by
  induction l with
  | nil => rfl
  | cons x rest ih => simpa [getN] using ih

/-- A field update that keeps `Patterns`, `Sub` and `Root` leaves every
node's `Patterns`, `Sub` and `Root` unchanged. -/
theorem node_set_preserves (s : State) (r i : Nat) (f : Node → Node)
    (hPat : ∀ n, (f n).Patterns = n.Patterns)
    (hSub : ∀ n, (f n).Sub = n.Sub)
    (hRoot : ∀ n, (f n).Root = n.Root) :
    ((s.set r (f (s.node r))).node i).Patterns = (s.node i).Patterns
      ∧ ((s.set r (f (s.node r))).node i).Sub = (s.node i).Sub
      ∧ ((s.set r (f (s.node r))).node i).Root = (s.node i).Root := by
  by_cases hri : r = i
  · subst hri
    by_cases hlen : r < s.nodes.length
    · rw [State.node_set_self _ _ _ hlen]
      exact ⟨hPat _, hSub _, hRoot _⟩
    · have hs : s.set r (f (s.node r)) = s := by
        show (⟨setN s.nodes r (f (s.node r))⟩ : State) = s
        rw [setN_ge _ _ _ (by omega)]
      rw [hs]
      exact ⟨rfl, rfl, rfl⟩
  · rw [State.node_set_ne _ _ _ _ hri]
    exact ⟨rfl, rfl, rfl⟩

theorem splitGo_ne_nil (l : Str) : splitGo l ≠ [] := by
  cases l with
  | nil => simp [splitGo]
  | cons c rest =>
      by_cases h : c = ' '
      · simp [splitGo, h]
      · simp only [splitGo, if_neg h]
        cases hsg : splitGo rest with
        | nil => simp
        | cons p ps => simp

theorem splitGo_no_space (p : Str) (h : ' ' ∉ p) : splitGo p = [p] := by
  induction p with
  | nil => rfl
  | cons c rest ih =>
      simp only [List.mem_cons, not_or] at h
      have hcs : ¬ c = ' ' := fun he => h.1 he.symm
      rw [show splitGo (c :: rest) = match splitGo rest with
        | [] => [[c]]
        | q :: qs => (c :: q) :: qs from by
          simp [splitGo, hcs]]
      rw [ih h.2]

theorem splitGo_sep (a b : Str) (ha : ' ' ∉ a) :
    splitGo (a ++ ' ' :: b) = a :: splitGo b := by
  induction a with
  | nil => simp [splitGo]
  | cons c rest ih =>
      simp only [List.mem_cons, not_or] at ha
      have hcs : ¬ c = ' ' := fun he => ha.1 he.symm
      rw [List.cons_append]
      rw [show splitGo (c :: (rest ++ ' ' :: b)) = match splitGo (rest ++ ' ' :: b) with
        | [] => [[c]]
        | q :: qs => (c :: q) :: qs from by
          simp [splitGo, hcs]]
      rw [ih ha.2]

/-! ### Claim theorems -/

/-- C3 (counterexample): the claim states that composing middlewares
`[m0, m1]` around a handler yields `m0`-executes-first order for all of
the cited composition functions.  For `NewHandler` (main.go) this is
false: with the labelled middlewares `tag 0` and `tag 1` the observed
execution trace is `[1, 0]` — `m1` runs first — not `[0, 1]`. -/
theorem c3_middleware_order_counterexample :
    NewHandler [tag 0, tag 1] [] = [1, 0]
      ∧ NewHandler [tag 0, tag 1] [] ≠ [0, 1] := by
  decide

/-- C3 (amended): the muxify `newHandler` (shared by the `Mux` and
`ServeMuxBuilder` halves of muxify.go) builds the wrapping from the end
of the list backward, so the observed execution order is `m0, m1, …,
mn-1, h`; the `NewHandler` of main.go builds it forward, so its observed
order is reversed: `mn-1, …, m1, m0, h`. -/
theorem c3_middleware_order_amended (labels : List Nat) (h : Handler) :
    newHandler (labels.map tag) h = labels ++ h
      ∧ NewHandler (labels.map tag) h = labels.reverse ++ h := by
  constructor
  · induction labels with
    | nil => rfl
    | cons a t ih => simp only [List.map_cons, newHandler, List.foldr_cons]
                     rw [show List.foldr (fun m acc => m acc) h (t.map tag)
                       = newHandler (t.map tag) h from rfl, ih, tag]
                     simp
  · induction labels generalizing h with
    | nil => rfl
    | cons a t ih =>
        rw [show NewHandler ((a :: t).map tag) h
          = NewHandler (t.map tag) (tag a h) from rfl, ih (tag a h)]
        simp [tag]

/-- C9: for every state of the builder heap and every start node,
`Build`'s breadth-first traversal visits each node at most once — its
visit order contains no duplicates — even though every `Pattern` call
appends the receiving node to its own child list and thereby creates a
self-cycle in the child graph.  Termination for every finite tree is
witnessed by `bfsAux` being a total function (its recursion is
well-founded on (unvisited-nodes, queue-length)). -/
theorem c9_build_visits_each_node_once (s : State) (b : Nat) :
    ((Build s b).2.2).Nodup := by
  simpa [Build] using (bfsAux_nodup s.nodes [(s.node b).Root] []).2

/-- C2 (amended): `Build` performs no duplicate detection and cannot
fail: the sequence of `Handle` registrations it emits is exactly the
concatenation of the visited nodes' local pattern maps in visit order,
duplicates included; a colliding `(method, fullPath)` key is simply
emitted twice (the external `http.ServeMux` sink is what rejects it,
outside this package), and no `DuplicateRouteError` exists. -/
theorem c2_duplicate_route_amended (s : State) (b : Nat) :
    (Build s b).2.1 = patternsOf s.nodes (Build s b).2.2 := by
  simpa [Build] using bfsAux_calls_eq s.nodes [(s.node b).Root] []

/-- C4 (amended): `Build` is not guarded: a second invocation on the
same root re-traverses the (unchanged) tree and emits exactly the same
registration sequence again instead of failing — `executedBuild` is
written by `Build` but never checked by it, and no
`BuildAlreadyExecutedError` exists. -/
theorem c4_build_twice_amended (s : State) (b : Nat) :
    (Build (Build s b).1 b).2.1 = (Build s b).2.1 := by
  have hpres := fun i => node_set_preserves s ((s.node b).Root) i
    (fun n => { n with
      registeredPatterns := n.registeredPatterns
        ++ ((bfsAux s.nodes [(s.node b).Root] []).2.map Prod.fst),
      executedBuild := true })
    (fun _ => rfl) (fun _ => rfl) (fun _ => rfl)
  have hcongr := bfsAux_congr ((Build s b).1).nodes s.nodes
    (fun i => ⟨(hpres i).1, (hpres i).2.1⟩)
  have hroot : (((Build s b).1).node b).Root = (s.node b).Root := (hpres b).2.2
  show (bfsAux ((Build s b).1).nodes [(((Build s b).1).node b).Root] []).2
    = (bfsAux s.nodes [(s.node b).Root] []).2
  rw [hroot, hcongr]

/-- Root node with fragment "r" (C1 scenario). -/
def c1s1 : State := Prefix (newBuilder ⟨[]⟩).1 0 (str "r")

/-- Child (id 1) of the root with fragment "c1". -/
def c1s2 : State := Prefix ((Subrouter c1s1 0).1) 1 (str "c1")

/-- Grandchild (id 2) of the root with fragment "g". -/
def c1s3 : State := Prefix ((Subrouter c1s2 1).1) 2 (str "g")

/-- The grandchild registers one pattern. -/
def c1State : State := Pattern c1s3 2 [(str "GET /x", 7)]

/-- C1 (counterexample): in the tree root "r" → child "c1" → grandchild
"g", the grandchild's `Pattern` call produces the key `GET /r/g/x`: the
intermediate ancestor's fragment "c1" is dropped (the scan in `Pattern`
looks only at the root's prefix and at children of children of the
parent, never at the parent's own fragment), whereas the
separator-normalized ancestor-chain join required by the claim yields
`GET /r/c1/g/x`. -/
theorem c1_effective_prefix_counterexample :
    (c1State.node 2).Parent = 1 ∧ (c1s3.node 1).Parent = 0
      ∧ (c1State.node 2).Patterns = [(str "GET /r/g/x", 7)]
      ∧ str "GET " ++ removeDoubleSlash
          (specEffectivePrefix [str "r", str "c1", str "g"] ++ str "/x")
        = str "GET /r/c1/g/x"
      ∧ (str "GET /r/g/x" : Str) ≠ str "GET /r/c1/g/x" := by
  decide

/-- C1 (amended): the ancestor-chain rule survives only at depth ≤ 1:
for the root itself and for nodes whose parent is the root, a `Pattern`
call keys its registrations with
`method ++ removeDoubleSlash(rootFragment ++ ownFragment ++ path)` (the
root's fragment reads as empty for the root itself, whose stored
fragment is the whole prefix) — the separator-normalized join of the
ancestor fragments.  For deeper nodes the prefix comes from an
order-dependent scan of sibling/child lists and can omit intermediate
ancestors' fragments entirely (see the counterexample). -/
theorem c1_effective_prefix_amended (s : State) (c : Nat) (pat : Str)
    (hd : Nat)
    (hpar : (s.node c).Parent = (s.node c).Root)
    (hlen : c < s.nodes.length) :
    ((Pattern s c [(pat, hd)]).node c).Patterns
      = insertReplace (s.node c).Patterns
          ((splitPattern pat).1
            ++ removeDoubleSlash
              (((if (s.node c).Root = c then []
                  else (s.node (s.node c).Root).PatternPrefix)
                 ++ (s.node c).PatternPrefix) ++ (splitPattern pat).2)) hd := by
  rw [Pattern_parent_root s c _ hpar, State.node_set_self _ _ _ hlen]
  simp

/-- Root "v1" with a child (id 1) carrying fragment "v2". -/
def c1wState : State :=
  Prefix ((Subrouter (Prefix (newBuilder ⟨[]⟩).1 0 (str "v1")) 0).1) 1 (str "v2")

/-- Witness for `c1_effective_prefix_amended` at a concrete
child-of-root node. -/
theorem c1_effective_prefix_amended_witness :
    ((c1wState.node 1).Parent = (c1wState.node 1).Root
        ∧ 1 < c1wState.nodes.length)
      ∧ ((Pattern c1wState 1 [(str "GET /t", 4)]).node 1).Patterns
        = insertReplace (c1wState.node 1).Patterns
            ((splitPattern (str "GET /t")).1
              ++ removeDoubleSlash
                (((if (c1wState.node 1).Root = 1 then []
                    else (c1wState.node (c1wState.node 1).Root).PatternPrefix)
                   ++ (c1wState.node 1).PatternPrefix)
                  ++ (splitPattern (str "GET /t")).2)) 4 :=
  ⟨⟨by decide, by decide⟩,
   c1_effective_prefix_amended c1wState 1 (str "GET /t") 4 (by decide)
     (by decide)⟩

/-- Root "v1" registering `GET /a/b` (C2 scenario). -/
def c2s1 : State :=
  Pattern (Prefix (newBuilder ⟨[]⟩).1 0 (str "v1")) 0 [(str "GET /a/b", 1)]

/-- A child (id 1) with fragment "a" registering `GET /b`: its full key
collides with the root's `GET /v1/a/b`. -/
def c2State : State :=
  Pattern (Prefix ((Subrouter c2s1 0).1) 1 (str "a")) 1 [(str "GET /b", 2)]

/-- `c2State` written out literally (proved equal to the API-built state
in the counterexample proof), so that the breadth-first walk can be
evaluated by rewriting. -/
def c2StateLit : State := ⟨[
  { Patterns := [(str "GET /v1/a/b", 1)], PatternPrefix := str "/v1",
    Middlewares := [], Root := 0, Parent := 0, Sub := [0, 1],
    registeredPatterns := [], executedBuild := false },
  { Patterns := [(str "GET /v1/a/b", 2)], PatternPrefix := str "/v1/a",
    Middlewares := [], Root := 0, Parent := 0, Sub := [1],
    registeredPatterns := [], executedBuild := false }]⟩

/-- C2 (counterexample): two distinct nodes (the root, visited first,
and its child, visited second) produce the same key `GET /v1/a/b`, yet
`Build` does not fail: it returns normally and emits BOTH registrations
to the sink, the duplicate key included — there is no
`DuplicateRouteError`. -/
theorem c2_duplicate_route_counterexample :
    (Build c2State 0).2.1
        = [(str "GET /v1/a/b", 1), (str "GET /v1/a/b", 2)]
      ∧ (Build c2State 0).2.2 = [0, 1] := by
  rw [show c2State = c2StateLit from by decide]
  simp [Build, c2StateLit, bfsAux, getN, State.node, str]

/-- Root "v1" registering `GET /a` (C4 scenario). -/
def c4State : State :=
  Pattern (Prefix (newBuilder ⟨[]⟩).1 0 (str "v1")) 0 [(str "GET /a", 1)]

/-- `c4State` written out literally for evaluation. -/
def c4StateLit : State := ⟨[
  { Patterns := [(str "GET /v1/a", 1)], PatternPrefix := str "/v1",
    Middlewares := [], Root := 0, Parent := 0, Sub := [0],
    registeredPatterns := [], executedBuild := false }]⟩

/-- C4 (counterexample): after a first `Build` (which sets the root's
`executedBuild` flag), a second `Build` on the same root does NOT fail:
it re-traverses, emits the same registration again, and appends the
pattern a second time to the root's `registeredPatterns` — there is no
`BuildAlreadyExecutedError`. -/
theorem c4_build_twice_counterexample :
    (Build c4State 0).2.1 = [(str "GET /v1/a", 1)]
      ∧ ((Build c4State 0).1.node 0).executedBuild = true
      ∧ (Build (Build c4State 0).1 0).2.1 = [(str "GET /v1/a", 1)]
      ∧ ((Build (Build c4State 0).1 0).1.node 0).registeredPatterns
          = [str "GET /v1/a", str "GET /v1/a"] := by
  rw [show c4State = c4StateLit from by decide]
  simp [Build, c4StateLit, bfsAux, getN, setN, State.node, State.set, str]

/-- Fresh root registering the pattern string "noslash", which has no
method token and whose path does not begin with a separator. -/
def c5State : State := Pattern (newBuilder ⟨[]⟩).1 0 [(str "noslash", 3)]

/-- C5 (counterexample): registering the shape-violating pattern string
"noslash" (no method token, path not starting with a separator) does NOT
fail: `Pattern` stores it under the key "noslash" and returns normally —
there is no `InvalidPatternError` and no separator check. -/
theorem c5_invalid_pattern_counterexample :
    (c5State.node 0).Patterns = [(str "noslash", 3)]
      ∧ (str "noslash").head? ≠ some '/' := by
  decide

/-- C5 (amended): pattern registration never fails and performs no shape
validation.  The split is purely positional: a string with no space is
used whole as the path with an empty method; a string with exactly one
space yields (method ++ " ", path); with two or more spaces the method
is empty and the FIRST token becomes the path.  In no case is the path
required to begin with a separator. -/
theorem c5_invalid_pattern_amended :
    (∀ p : Str, ' ' ∉ p → splitPattern p = ([], p))
      ∧ (∀ a b : Str, ' ' ∉ a → ' ' ∉ b →
          splitPattern (a ++ ' ' :: b) = (a ++ [' '], b))
      ∧ (∀ a b c : Str, ' ' ∉ a → ' ' ∉ b →
          splitPattern (a ++ ' ' :: (b ++ ' ' :: c)) = ([], a)) := by
  refine ⟨?_, ?_, ?_⟩
  · intro p hp
    simp [splitPattern, splitGo_no_space p hp]
  · intro a b ha hb
    simp [splitPattern, splitGo_sep a b ha, splitGo_no_space b hb]
  · intro a b c ha hb
    cases hc : splitGo c with
    | nil => exact absurd hc (splitGo_ne_nil c)
    | cons d ds =>
        simp [splitPattern, splitGo_sep a _ ha, splitGo_sep b c hb, hc]

/-- Witness for `c5_invalid_pattern_amended`: the no-space clause at the
concrete input "abc". -/
theorem c5_invalid_pattern_amended_witness :
    (' ' ∉ str "abc") ∧ splitPattern (str "abc") = ([], str "abc") :=
  ⟨by decide, c5_invalid_pattern_amended.1 (str "abc") (by decide)⟩

/-- A `Subrouter` child snapshots the PARENT's middleware slice
(muxify.go): the freshly created child's middlewares equal the parent's
at creation time. -/
theorem Subrouter_child_mws (s : State) (b : Nat) (hb : b < s.nodes.length) :
    (((Subrouter s b).1).node ((Subrouter s b).2)).Middlewares
      = (s.node b).Middlewares := by
  simp only [Subrouter]
  rw [State.node_set_ne _ _ _ _ (show b ≠ s.nodes.length from by omega)]
  simp only [State.node]
  rw [getN_append_len]
  by_cases hbr : b = (s.node b).Root
  · have hbr' : b = (getN s.nodes b).Root := hbr
    rw [if_neg (not_not_intro hbr')]
    show (getN s.nodes ((getN s.nodes b).Root)).Middlewares = _
    rw [← hbr']
  · have hbr' : b ≠ (getN s.nodes b).Root := hbr
    rw [if_pos hbr']

/-- An `xxsSubrouter` child snapshots the ROOT's middleware slice
(main.go). -/
theorem xxsSubrouter_child_mws (s : State) (b : Nat)
    (hb : b < s.nodes.length) :
    (((xxsSubrouter s b).1).node ((xxsSubrouter s b).2)).Middlewares
      = (s.node ((s.node b).Root)).Middlewares := by
  simp only [xxsSubrouter]
  rw [State.node_set_ne _ _ _ _ (show b ≠ s.nodes.length from by omega)]
  simp only [State.node]
  rw [getN_append_len]

/-- Root with middleware [1]; its child (id 1) adds middleware 2. -/
def c6s1 : State := Use (newBuilder ⟨[]⟩).1 0 [1]

/-- Child of the root created by `xxsSubrouter`, then given its own
middleware. -/
def c6s2 : State := Use ((xxsSubrouter c6s1 0).1) 1 [2]

/-- A grandchild (id 2) created by `xxsSubrouter` from the child. -/
def c6State : State := (xxsSubrouter c6s2 1).1

/-- C6 (counterexample): in the main.go variant, a grandchild created
from a parent whose effective chain is [1, 2] receives only the ROOT's
chain [1] — not a copy of its parent's effective chain as the claim
states for every node created by Subrouter. -/
theorem c6_middleware_snapshot_counterexample :
    (c6State.node 2).Parent = 1
      ∧ (c6s2.node 1).Middlewares = [1, 2]
      ∧ (c6State.node 2).Middlewares = [1]
      ∧ (c6State.node 2).Middlewares ≠ (c6s2.node 1).Middlewares := by
  decide

/-- C6 (amended): `ServeMuxBuilder.Subrouter` (muxify.go) snapshots the
parent's current middleware chain, while `XXSMux.Subrouter` (main.go)
snapshots the ROOT's current chain.  In both variants the snapshot is a
copy: `Use` on one node leaves every other node untouched (so middleware
appended to an ancestor later is invisible to an existing child), and a
subrouter created AFTER a `Use` call does see the appended
middleware. -/
theorem c6_middleware_snapshot_amended (s : State) (b : Nat)
    (mws : List Nat) (hb : b < s.nodes.length) :
    (((Subrouter s b).1).node ((Subrouter s b).2)).Middlewares
        = (s.node b).Middlewares
      ∧ (∀ a c : Nat, c ≠ a → (Use s a mws).node c = s.node c)
      ∧ (((Subrouter (Use s b mws) b).1).node
            ((Subrouter (Use s b mws) b).2)).Middlewares
          = (s.node b).Middlewares ++ mws
      ∧ (((xxsSubrouter s b).1).node ((xxsSubrouter s b).2)).Middlewares
          = (s.node ((s.node b).Root)).Middlewares := by
  refine ⟨Subrouter_child_mws s b hb, ?_, ?_, xxsSubrouter_child_mws s b hb⟩
  · intro a c hca
    exact State.node_set_ne _ _ _ _ (fun h => hca h.symm)
  · have hb' : b < (Use s b mws).nodes.length := by
      show b < (setN _ _ _).length
      rw [length_setN]
      exact hb
    rw [Subrouter_child_mws (Use s b mws) b hb']
    show ((s.set b _).node b).Middlewares = _
    rw [State.node_set_self _ _ _ hb]

/-- Root carrying middleware [5] for the C6 witness. -/
def c6wState : State := Use (newBuilder ⟨[]⟩).1 0 [5]

/-- Witness for `c6_middleware_snapshot_amended` at the concrete root
node of `c6wState` with appended middleware [9]. -/
theorem c6_middleware_snapshot_amended_witness :
    0 < c6wState.nodes.length
      ∧ ((((Subrouter c6wState 0).1).node
              ((Subrouter c6wState 0).2)).Middlewares
            = (c6wState.node 0).Middlewares
          ∧ (∀ a c : Nat, c ≠ a →
              (Use c6wState a [9]).node c = c6wState.node c)
          ∧ (((Subrouter (Use c6wState 0 [9]) 0).1).node
                ((Subrouter (Use c6wState 0 [9]) 0).2)).Middlewares
              = (c6wState.node 0).Middlewares ++ [9]
          ∧ (((xxsSubrouter c6wState 0).1).node
                ((xxsSubrouter c6wState 0).2)).Middlewares
              = (c6wState.node ((c6wState.node 0).Root)).Middlewares) :=
  ⟨by decide, c6_middleware_snapshot_amended c6wState 0 [9] (by decide)⟩

/-- C7 (counterexample): `Mux.Prefix` (muxify.go) ACCUMULATES: after
`Prefix("a")` then `Prefix("b")` the stored fragment is "/a/b", not the
replacement "/b" required by the claim; and `XXSMux.Prefix` (main.go)
stores "x" verbatim without inserting the leading separator the claim
requires. -/
theorem c7_prefix_overwrite_counterexample :
    ((NewMux.Prefix (str "a")).Prefix (str "b")).patternPrefix = str "/a/b"
      ∧ str "/a/b" ≠ str "/b"
      ∧ ((xxsPrefix (newBuilder ⟨[]⟩).1 0 (str "x")).node 0).PatternPrefix
          = str "x"
      ∧ (str "x").head? ≠ some '/' := by
  decide

/-- C7 (amended): only `ServeMuxBuilder.Prefix` (muxify.go) behaves as
the claim states: it stores the normalized fragment and a second call
REPLACES the first.  `Mux.Prefix` normalizes but APPENDS to the stored
fragment, and `XXSMux.Prefix` replaces but performs no normalization at
all.  Normalization itself inserts a leading separator exactly when the
(non-empty) argument lacks one. -/
theorem c7_prefix_overwrite_amended (s : State) (b : Nat) (p q : Str)
    (hb : b < s.nodes.length) :
    ((Prefix (Prefix s b p) b q).node b).PatternPrefix = normalizePrefix q
      ∧ (∀ m : Mux, ∀ r : Str,
          (m.Prefix r).patternPrefix = m.patternPrefix ++ normalizePrefix r)
      ∧ ((xxsPrefix s b p).node b).PatternPrefix = p
      ∧ (∀ c : Char, ∀ r : Str, c ≠ '/' →
          normalizePrefix (c :: r) = '/' :: c :: r)
      ∧ (∀ r : Str, normalizePrefix ('/' :: r) = '/' :: r) := by
  refine ⟨?_, fun m r => rfl, ?_, ?_, ?_⟩
  · have hb' : b < (Prefix s b p).nodes.length := by
      show b < (setN _ _ _).length
      rw [length_setN]
      exact hb
    show (((Prefix s b p).set b _).node b).PatternPrefix = _
    rw [State.node_set_self _ _ _ hb']
  · show ((s.set b _).node b).PatternPrefix = p
    rw [State.node_set_self _ _ _ hb]
  · intro c r hc
    simp [normalizePrefix, hc]
  · intro r
    simp [normalizePrefix]

/-- Witness for `c7_prefix_overwrite_amended` on a fresh root with
fragments "p1" then "p2". -/
theorem c7_prefix_overwrite_amended_witness :
    0 < ((newBuilder ⟨[]⟩).1).nodes.length
      ∧ (((Prefix (Prefix (newBuilder ⟨[]⟩).1 0 (str "p1")) 0
              (str "p2")).node 0).PatternPrefix = normalizePrefix (str "p2")
          ∧ (∀ m : Mux, ∀ r : Str,
              (m.Prefix r).patternPrefix
                = m.patternPrefix ++ normalizePrefix r)
          ∧ ((xxsPrefix (newBuilder ⟨[]⟩).1 0 (str "p1")).node
                0).PatternPrefix = str "p1"
          ∧ (∀ c : Char, ∀ r : Str, c ≠ '/' →
              normalizePrefix (c :: r) = '/' :: c :: r)
          ∧ (∀ r : Str, normalizePrefix ('/' :: r) = '/' :: r)) :=
  ⟨by decide,
   c7_prefix_overwrite_amended (newBuilder ⟨[]⟩).1 0 (str "p1") (str "p2")
     (by decide)⟩

/-- C8 (counterexample): `Mux.Handle` (muxify.go) applies NO separator
normalization: registering "GET //test" on a `Mux` whose stored prefix
is "/v1//" emits the pattern "GET /v1////test", which contains runs of
repeated separators — the claim's "no run of two or more consecutive
separators anywhere" fails for this emitted table entry. -/
theorem c8_normalization_counterexample :
    ((NewMux.Prefix (str "v1//")).Handle (str "GET //test") 9).2
        = str "GET /v1////test"
      ∧ hasDoubleSlash
          ((NewMux.Prefix (str "v1//")).Handle (str "GET //test") 9).2
        = true := by
  decide

/-- C8 (amended): the tree variants (`ServeMuxBuilder.Pattern`,
`XXSMux.Pattern`) normalize every full path through
`removeDoubleSlash`, whose output never contains two consecutive
separators — in particular suffix "//test" joined under prefix "/v1//"
yields "/v1/test" exactly as the claim demands; the flat `Mux.Handle`,
however, concatenates prefix and path without any collapsing (see the
counterexample). -/
theorem c8_normalization_amended :
    (∀ t : Str, hasDoubleSlash (removeDoubleSlash t) = false)
      ∧ removeDoubleSlash (str "/v1//" ++ str "//test") = str "/v1/test" :=
  ⟨removeDoubleSlash_no_double, by decide⟩

/-- C10: `Pattern` mutates the node's stored prefix as a side effect.
For a child of the root (shown here; the scan is skipped for such
nodes), one `Pattern` call overwrites the stored fragment with the
recomputed value root-prefix ++ own-fragment — a value different from
the fragment set by `Prefix` whenever the root's prefix is non-empty —
and a second `Pattern` call on the same node observes the recomputed
value rather than the originally configured fragment, compounding the
root prefix a second time. -/
theorem c10_pattern_mutates_prefix (s : State) (c : Nat) (pat pat2 : Str)
    (h1 h2 : Nat)
    (hpar : (s.node c).Parent = (s.node c).Root)
    (hne : (s.node c).Root ≠ c)
    (hc : c < s.nodes.length)
    (hrp : (s.node ((s.node c).Root)).PatternPrefix ≠ []) :
    ((Pattern s c [(pat, h1)]).node c).PatternPrefix
        = (s.node ((s.node c).Root)).PatternPrefix
            ++ (s.node c).PatternPrefix
      ∧ ((Pattern s c [(pat, h1)]).node c).PatternPrefix
          ≠ (s.node c).PatternPrefix
      ∧ ((Pattern (Pattern s c [(pat, h1)]) c
            [(pat2, h2)]).node c).PatternPrefix
        = (s.node ((s.node c).Root)).PatternPrefix
            ++ ((s.node ((s.node c).Root)).PatternPrefix
                 ++ (s.node c).PatternPrefix) := by
  have e1 := Pattern_parent_root s c [(pat, h1)] hpar
  have hn1 : (Pattern s c [(pat, h1)]).node c
      = { s.node c with
          PatternPrefix :=
            (if (s.node c).Root = c then []
             else (s.node ((s.node c).Root)).PatternPrefix)
              ++ (s.node c).PatternPrefix,
          Patterns := [(pat, h1)].foldl (fun acc pr =>
            insertReplace acc ((splitPattern pr.1).1
              ++ removeDoubleSlash
                (((if (s.node c).Root = c then []
                    else (s.node ((s.node c).Root)).PatternPrefix)
                   ++ (s.node c).PatternPrefix) ++ (splitPattern pr.1).2))
              pr.2) (s.node c).Patterns,
          Sub := (s.node c).Sub ++ [c] } := by
    rw [e1, State.node_set_self _ _ _ hc]
  have part1 : ((Pattern s c [(pat, h1)]).node c).PatternPrefix
      = (s.node ((s.node c).Root)).PatternPrefix
          ++ (s.node c).PatternPrefix := by
    rw [hn1]
    show (if (s.node c).Root = c then []
          else (s.node ((s.node c).Root)).PatternPrefix)
        ++ (s.node c).PatternPrefix = _
    rw [if_neg hne]
  refine ⟨part1, ?_, ?_⟩
  · rw [part1]
    intro heq
    have hl := congrArg List.length heq
    rw [List.length_append] at hl
    exact hrp (List.length_eq_zero.mp (by omega))
  · have hc1 : c < (Pattern s c [(pat, h1)]).nodes.length := by
      rw [e1]
      show c < (setN _ _ _).length
      rw [length_setN]
      exact hc
    have hroot1 : ((Pattern s c [(pat, h1)]).node c).Root = (s.node c).Root := by
      rw [hn1]
    have hpar1 : ((Pattern s c [(pat, h1)]).node c).Parent
        = ((Pattern s c [(pat, h1)]).node c).Root := by
      rw [hn1]
      exact hpar
    have hrootnode : (Pattern s c [(pat, h1)]).node ((s.node c).Root)
        = s.node ((s.node c).Root) := by
      rw [e1]
      exact State.node_set_ne _ _ _ _ (fun h => hne h.symm)
    have e2 := Pattern_parent_root (Pattern s c [(pat, h1)]) c
      [(pat2, h2)] hpar1
    rw [e2, State.node_set_self _ _ _ hc1]
    show (if ((Pattern s c [(pat, h1)]).node c).Root = c then []
          else ((Pattern s c [(pat, h1)]).node
              (((Pattern s c [(pat, h1)]).node c).Root)).PatternPrefix)
        ++ ((Pattern s c [(pat, h1)]).node c).PatternPrefix = _
    rw [hroot1, if_neg hne, hrootnode, part1]

/-- Root with fragment "r" and a child (id 1) with fragment "c", for the
C10 witness. -/
def c10State : State :=
  Prefix ((Subrouter (Prefix (newBuilder ⟨[]⟩).1 0 (str "r")) 0).1) 1
    (str "c")

/-- Witness for `c10_pattern_mutates_prefix` at the concrete child node
of `c10State`. -/
theorem c10_pattern_mutates_prefix_witness :
    ((c10State.node 1).Parent = (c10State.node 1).Root
        ∧ (c10State.node 1).Root ≠ 1
        ∧ 1 < c10State.nodes.length
        ∧ (c10State.node ((c10State.node 1).Root)).PatternPrefix ≠ [])
      ∧ (((Pattern c10State 1 [(str "GET /x", 5)]).node 1).PatternPrefix
            = (c10State.node ((c10State.node 1).Root)).PatternPrefix
                ++ (c10State.node 1).PatternPrefix
          ∧ ((Pattern c10State 1 [(str "GET /x", 5)]).node 1).PatternPrefix
              ≠ (c10State.node 1).PatternPrefix
          ∧ ((Pattern (Pattern c10State 1 [(str "GET /x", 5)]) 1
                [(str "GET /y", 6)]).node 1).PatternPrefix
            = (c10State.node ((c10State.node 1).Root)).PatternPrefix
                ++ ((c10State.node ((c10State.node 1).Root)).PatternPrefix
                     ++ (c10State.node 1).PatternPrefix)) :=
  ⟨⟨by decide, by decide, by decide, by decide⟩,
   c10_pattern_mutates_prefix c10State 1 (str "GET /x") (str "GET /y") 5 6
     (by decide) (by decide) (by decide) (by decide)⟩

end Muxify
